import Mathlib

/-!
Verification of the MeshCore serial-to-TCP bridge
(`examples/serial_to_tcp_bridge.py`): a shallow embedding of the
incremental frame decoder (`parse_serial_frames`), the broadcast path
(`handle_serial_frame`), the TCP-client forwarding loop
(`handle_tcp_client`), and the inline encoder
(`FRAME_START + size.to_bytes(2, "little") + frame`), with proofs of the
spec's codec and fan-out properties.

Bytes are modelled as natural numbers; wire input bytes carry the bound
`b < 256` as a hypothesis where the arithmetic needs it.
-/

namespace Bridge

/-- `FRAME_START = b"\x3c"`: the frame marker byte. -/
def FRAME_START : Nat := 60

/-- Decoder state of `parse_serial_frames` (mirrors the four instance
fields `serial_frame_started`, `serial_frame_size`, `serial_header`,
`serial_inframe`; the same four locals drive the TCP-side loop). -/
structure DecState where
  frame_started : Bool
  frame_size : Nat
  header : List Nat
  inframe : List Nat
deriving DecidableEq, Repr

/-- The decoder state set up in `__init__`. -/
def decInit : DecState := ⟨false, 0, [], []⟩

/-- The `while i < len(data)` loop of `parse_serial_frames`, with the four
state fields as accumulators.  Returns the state at loop exit and the
complete frames handed to `handle_serial_frame`, in order.

Branches, in source order:
* loop exit when `i = len(data)`;
* `not frame_started`, `data[i] == 0x3C`, `len(data) - i >= 3`:
  header consumed, `frame_size = int.from_bytes(header[1:3], "little")`,
  `frame_started = True`, `i += 3`;
* `not frame_started`, `data[i] == 0x3C`, fewer than 3 bytes left:
  `serial_header = data[i:]` saved, `break`;
* `not frame_started`, other byte: `i += 1`;
* `frame_started`, `len(data) - i >= remaining` where
  `remaining = frame_size - len(inframe)`: frame completed and emitted,
  state reset (`frame_size` is left as is), `i += remaining`;
* `frame_started`, not enough data: `inframe += data[i:]`, `break`. -/
def feedGo : Bool → Nat → List Nat → List Nat → List Nat → DecState × List (List Nat)
  | started, size, hdr, buf, [] => (⟨started, size, hdr, buf⟩, [])
  | false, size, hdr, buf, b :: rest =>
    if b = FRAME_START then
      match rest with
      | lo :: hi :: rest2 => feedGo true (lo + 256 * hi) [b, lo, hi] buf rest2
      | _ => (⟨false, size, b :: rest, buf⟩, [])
    else
      feedGo false size hdr buf rest
  | true, size, hdr, buf, b :: rest =>
    let remaining := size - buf.length
    if remaining ≤ (b :: rest).length then
      let frame := buf ++ (b :: rest).take remaining
      let res := feedGo false size [] [] ((b :: rest).drop remaining)
      (res.1, frame :: res.2)
    else
      (⟨true, size, hdr, buf ++ (b :: rest)⟩, [])
termination_by started _ _ _ data => data.length * 2 + cond started 1 0
decreasing_by
  all_goals simp_all [List.length_drop]
  all_goals omega

/-- `parse_serial_frames(data)`: run the loop from a given state. -/
def parse_serial_frames (st : DecState) (data : List Nat) :
    DecState × List (List Nat) :=
  feedGo st.frame_started st.frame_size st.header st.inframe data

/-- Feed a sequence of chunks one `parse_serial_frames` call each,
threading the decoder state, collecting all emitted frames in order. -/
def feedChunks (st : DecState) : List (List Nat) → DecState × List (List Nat)
  | [] => (st, [])
  | c :: cs =>
    let r := parse_serial_frames st c
    let r2 := feedChunks r.1 cs
    (r2.1, r.2 ++ r2.2)

/-- Invariant of the decoder state reachable from `decInit` on byte-valued
input: the declared size fits 16 bits (it is read from two wire bytes),
the payload buffer never exceeds the declared size while a frame is open,
and the payload buffer is empty between frames. -/
def DecInv (st : DecState) : Prop :=
  st.frame_size < 65536 ∧
    (st.frame_started = true → st.inframe.length ≤ st.frame_size) ∧
    (st.frame_started = false → st.inframe = [])

/-- The one failure the encoding path can raise:
`size.to_bytes(2, byteorder="little")` raises when `size >= 2^16`
(the spec's `PayloadTooLarge`). -/
inductive EncodeError where
  | payloadTooLarge
deriving DecidableEq, Repr

/-- `n.to_bytes(2, byteorder="little")`: two little-endian bytes, or the
overflow failure when `n` does not fit 16 bits. -/
def to_bytes_le2 (n : Nat) : Except EncodeError (List Nat) :=
  if n < 65536 then Except.ok [n % 256, n / 256 % 256] else Except.error .payloadTooLarge

/-- The inline encoder of `handle_serial_frame`
(`packet = FRAME_START + size.to_bytes(2, "little") + frame`) as a
standalone function of the payload. -/
def encode (payload : List Nat) : Except EncodeError (List Nat) :=
  (to_bytes_le2 payload.length).map (fun lenBytes => FRAME_START :: lenBytes ++ payload)

/-- One TCP client as the broadcast loop sees it: an identity and whether
`client_writer.write(packet); await client_writer.drain()` succeeds. -/
structure Client where
  id : Nat
  writeOk : Bool
deriving DecidableEq, Repr

/-- The `for client_writer in self.tcp_clients` loop of
`handle_serial_frame`: attempts the write on every client in order; a
failing client is appended to `disconnected_clients` and the loop
continues.  Returns the performed writes `(client id, packet)` in order
and the `disconnected_clients` list. -/
def sendLoop (clients : List Client) (packet : List Nat) :
    List (Nat × List Nat) × List Client :=
  match clients with
  | [] => ([], [])
  | c :: cs =>
    let r := sendLoop cs packet
    if c.writeOk then ((c.id, packet) :: r.1, r.2) else (r.1, c :: r.2)

/-- `handle_serial_frame(frame)`: early return when `self.tcp_clients` is
empty; otherwise build the packet (which can overflow on
`size.to_bytes`), write it to every client, and discard the
disconnected clients from the set.  Returns the writes performed and the
new client set. -/
def handle_serial_frame (clients : List Client) (frame : List Nat) :
    Except EncodeError (List (Nat × List Nat) × List Client) :=
  if clients.isEmpty then Except.ok ([], clients)
  else
    (to_bytes_le2 frame.length).map (fun lenBytes =>
      let packet := FRAME_START :: lenBytes ++ frame
      let r := sendLoop clients packet
      (r.1, clients.filter (fun c => decide (c ∉ r.2))))

/-- Broadcast a list of decoded frames in order, threading the client
set (as `parse_serial_frames` does by awaiting `handle_serial_frame`
once per completed frame). -/
def broadcastFrames (clients : List Client) :
    List (List Nat) → Except EncodeError (List (Nat × List Nat) × List Client)
  | [] => Except.ok ([], clients)
  | f :: fs => do
    let r ← handle_serial_frame clients f
    let r2 ← broadcastFrames r.2 fs
    Except.ok (r.1 ++ r2.1, r2.2)

/-- The bridge-side state the upstream pump touches: the serial decoder
state and the TCP client set. -/
structure BridgeState where
  dec : DecState
  clients : List Client
deriving DecidableEq, Repr

/-- One upstream chunk through the bridge: decode with
`parse_serial_frames`, broadcast each completed frame with
`handle_serial_frame`. -/
def bridgeStep (s : BridgeState) (data : List Nat) :
    Except EncodeError (BridgeState × List (Nat × List Nat)) := do
  let r := parse_serial_frames s.dec data
  let r2 ← broadcastFrames s.clients r.2
  Except.ok (⟨r.1, r2.2⟩, r2.1)

/-- A sequence of upstream chunks through the bridge. -/
def bridgeRun (s : BridgeState) :
    List (List Nat) → Except EncodeError (BridgeState × List (Nat × List Nat))
  | [] => Except.ok (s, [])
  | c :: cs => do
    let r ← bridgeStep s c
    let r2 ← bridgeRun r.1 cs
    Except.ok (r2.1, r.2 ++ r2.2)

/-- Log events of the TCP-client forwarding loop. -/
inductive LogEvent where
  | errorWritingSerial
deriving DecidableEq, Repr

/-- Result of one `data` chunk through the client-side parsing loop of
`handle_tcp_client`: parser state at exit, frames written to the serial
transport (each `header + inframe`), log events, and whether any path of
the loop removed the client from `self.tcp_clients` (none does; removal
happens only in the `finally` block at disconnect). -/
structure TcpResult where
  state : DecState
  serialWrites : List (List Nat)
  logs : List LogEvent
  removed : Bool
deriving DecidableEq, Repr

/-- The inner `while i < len(data)` loop of `handle_tcp_client`.
`serialUp` models `self.serial_transport` being truthy; `writeFails`
models `self.serial_transport.write(full_frame)` raising.  On a completed
frame: if the transport is up and the write raises, the error is logged
and the loop `break`s *before* the `# Reset state` lines, so the filled
`inframe` is retained; if the transport is down, the write is skipped
silently and the state is reset; otherwise `header + inframe` is written
and the state is reset. -/
def tcpGo (serialUp writeFails : Bool) :
    Bool → Nat → List Nat → List Nat → List Nat → TcpResult
  | started, size, hdr, buf, [] => ⟨⟨started, size, hdr, buf⟩, [], [], false⟩
  | false, size, hdr, buf, b :: rest =>
    if b = FRAME_START then
      match rest with
      | lo :: hi :: rest2 =>
        tcpGo serialUp writeFails true (lo + 256 * hi) [b, lo, hi] buf rest2
      | _ => ⟨⟨false, size, b :: rest, buf⟩, [], [], false⟩
    else
      tcpGo serialUp writeFails false size hdr buf rest
  | true, size, hdr, buf, b :: rest =>
    let remaining := size - buf.length
    if remaining ≤ (b :: rest).length then
      let buf2 := buf ++ (b :: rest).take remaining
      if serialUp then
        if writeFails then
          ⟨⟨true, size, hdr, buf2⟩, [], [.errorWritingSerial], false⟩
        else
          let r := tcpGo serialUp writeFails false size [] [] ((b :: rest).drop remaining)
          ⟨r.state, (hdr ++ buf2) :: r.serialWrites, r.logs, r.removed⟩
      else
        let r := tcpGo serialUp writeFails false size [] [] ((b :: rest).drop remaining)
        ⟨r.state, r.serialWrites, r.logs, r.removed⟩
    else
      ⟨⟨true, size, hdr, buf ++ (b :: rest)⟩, [], [], false⟩
termination_by started _ _ _ data => data.length * 2 + cond started 1 0
decreasing_by
  all_goals simp_all [List.length_drop]
  all_goals omega

end Bridge

-- sanity checks (decoder behaviour on concrete inputs)
example : (Bridge.parse_serial_frames Bridge.decInit [60, 1, 0, 65]).2 = [[65]] := by
  simp [Bridge.parse_serial_frames, Bridge.feedGo, Bridge.decInit, Bridge.FRAME_START]
example : Bridge.parse_serial_frames Bridge.decInit [60, 0, 0] = (⟨true, 0, [60, 0, 0], []⟩, []) := by
  simp [Bridge.parse_serial_frames, Bridge.feedGo, Bridge.decInit, Bridge.FRAME_START]
example : (Bridge.feedChunks Bridge.decInit [[60], [1, 0, 65]]).2 = [] := by
  simp [Bridge.feedChunks, Bridge.parse_serial_frames, Bridge.feedGo, Bridge.decInit,
    Bridge.FRAME_START]
example : (Bridge.feedChunks Bridge.decInit [[60, 5], [0, 104, 101, 108, 108, 111]]).2 = [] := by
  simp [Bridge.feedChunks, Bridge.parse_serial_frames, Bridge.feedGo, Bridge.decInit,
    Bridge.FRAME_START]
example : (Bridge.parse_serial_frames Bridge.decInit [60, 5, 0, 104, 101, 108, 108, 111]).2
    = [[104, 101, 108, 108, 111]] := by
  simp [Bridge.parse_serial_frames, Bridge.feedGo, Bridge.decInit, Bridge.FRAME_START]
example : (Bridge.parse_serial_frames Bridge.decInit [7, 8, 60, 2, 0, 9, 10, 60, 0, 0, 1]).2
    = [[9, 10], []] := by
  simp [Bridge.parse_serial_frames, Bridge.feedGo, Bridge.decInit, Bridge.FRAME_START]

namespace Bridge

/-! ### Helper lemmas on the encoder -/

theorem encode_ok (p : List Nat) (h : p.length ≤ 65535) :
    encode p = Except.ok (FRAME_START :: p.length % 256 :: p.length / 256 % 256 :: p) := by
  have h6 : p.length < 65536 := by omega
  simp [encode, to_bytes_le2, h6, Except.map]

theorem encode_overflow (p : List Nat) (h : 65535 < p.length) :
    encode p = Except.error .payloadTooLarge := by
  have h6 : ¬ p.length < 65536 := by omega
  simp [encode, to_bytes_le2, h6, Except.map]

/-! ### Helper lemmas on the decoder loop -/

theorem feedGo_marker (size : Nat) (hdr buf : List Nat) (lo hi : Nat) (rest2 : List Nat) :
    feedGo false size hdr buf (FRAME_START :: lo :: hi :: rest2)
      = feedGo true (lo + 256 * hi) [FRAME_START, lo, hi] buf rest2 := by
  simp [feedGo]

theorem feedGo_skipByte (size : Nat) (hdr buf : List Nat) (b : Nat)
    (hb : b ≠ FRAME_START) (rest : List Nat) :
    feedGo false size hdr buf (b :: rest) = feedGo false size hdr buf rest := by
  match rest with
  | lo :: hi :: rest2 => rw [feedGo.eq_2, if_neg hb]
  | [] => rw [feedGo.eq_3 _ _ _ _ _ (by intro lo hi r2 h; simp at h), if_neg hb]
  | [x] => rw [feedGo.eq_3 _ _ _ _ _ (by intro lo hi r2 h; simp at h), if_neg hb]

theorem feedGo_skip (g : List Nat) (hg : ∀ b ∈ g, b ≠ FRAME_START)
    (size : Nat) (hdr buf data : List Nat) :
    feedGo false size hdr buf (g ++ data) = feedGo false size hdr buf data := by
  induction g with
  | nil => rfl
  | cons b g ih =>
    have hb : b ≠ FRAME_START := hg b (by simp)
    have hg2 : ∀ x ∈ g, x ≠ FRAME_START := fun x hx => hg x (by simp [hx])
    rw [List.cons_append, feedGo_skipByte _ _ _ _ hb, ih hg2]

theorem feedGo_payload (size : Nat) (hdr p : List Nat)
    (hlen : p.length = size) (h1 : 1 ≤ p.length) :
    feedGo true size hdr [] p = (⟨false, size, [], []⟩, [p]) := by
  obtain ⟨q, p2, rfl⟩ : ∃ q p2, p = q :: p2 := by
    cases p with
    | nil => simp at h1
    | cons q p2 => exact ⟨q, p2, rfl⟩
  subst hlen
  simp [feedGo]

theorem feedGo_encoded (size : Nat) (hdr : List Nat) (p : List Nat)
    (h1 : 1 ≤ p.length) (h2 : p.length ≤ 65535) :
    feedGo false size hdr [] (FRAME_START :: p.length % 256 :: p.length / 256 % 256 :: p)
      = (⟨false, p.length, [], []⟩, [p]) := by
  have hsz : p.length % 256 + 256 * (p.length / 256 % 256) = p.length := by omega
  rw [feedGo_marker, hsz, feedGo_payload _ _ _ rfl h1]

end Bridge

namespace Bridge

/-! ### Helper lemmas on the broadcast loop -/

theorem sendLoop_writes_packet (clients : List Client) (packet : List Nat) :
    ∀ w ∈ (sendLoop clients packet).1, w.2 = packet := by
  induction clients with
  | nil => intro w hw; simp [sendLoop] at hw
  | cons c cs ih =>
    intro w hw
    by_cases hc : c.writeOk = true
    · simp only [sendLoop, hc, if_true] at hw
      rcases List.mem_cons.mp hw with h | h
      · rw [h]
      · exact ih w h
    · simp only [sendLoop, hc, if_false] at hw
      exact ih w hw

theorem sendLoop_good_written (clients : List Client) (packet : List Nat) (c : Client)
    (hc : c ∈ clients) (hok : c.writeOk = true) :
    (c.id, packet) ∈ (sendLoop clients packet).1 := by
  induction clients with
  | nil => simp at hc
  | cons d ds ih =>
    rcases List.mem_cons.mp hc with h | h
    · subst h
      simp [sendLoop, hok]
    · have hmem := ih h
      by_cases hd : d.writeOk = true
      · simp only [sendLoop, hd, if_true]
        exact List.mem_cons_of_mem _ hmem
      · simp only [sendLoop, hd, if_false]
        exact hmem

theorem sendLoop_fail_mem (clients : List Client) (packet : List Nat) (c : Client)
    (hc : c ∈ clients) (hko : c.writeOk = false) :
    c ∈ (sendLoop clients packet).2 := by
  induction clients with
  | nil => simp at hc
  | cons d ds ih =>
    rcases List.mem_cons.mp hc with h | h
    · subst h
      simp [sendLoop, hko]
    · have hmem := ih h
      by_cases hd : d.writeOk = true
      · simp only [sendLoop, hd, if_true]
        exact hmem
      · simp only [sendLoop, hd, if_false]
        exact List.mem_cons_of_mem _ hmem

theorem handle_serial_frame_nil (frame : List Nat) :
    handle_serial_frame [] frame = Except.ok ([], []) := by
  simp [handle_serial_frame]

theorem handle_serial_frame_cons (clients : List Client) (h : clients ≠ []) (frame : List Nat)
    (hf : frame.length < 65536) :
    handle_serial_frame clients frame = Except.ok
      ((sendLoop clients (FRAME_START :: frame.length % 256 :: frame.length / 256 % 256 :: frame)).1,
       clients.filter (fun c => decide
         (c ∉ (sendLoop clients
           (FRAME_START :: frame.length % 256 :: frame.length / 256 % 256 :: frame)).2))) := by
  obtain ⟨d, ds, rfl⟩ := List.exists_cons_of_ne_nil h
  simp [handle_serial_frame, to_bytes_le2, hf, Except.map]

theorem broadcastFrames_ok (fs : List (List Nat)) :
    ∀ clients : List Client, (∀ f ∈ fs, f.length < 65536) →
      ∃ w s, broadcastFrames clients fs = Except.ok (w, s) ∧
        (clients = [] → w = [] ∧ s = []) := by
  induction fs with
  | nil => intro clients _; exact ⟨[], clients, rfl, fun h => ⟨rfl, h⟩⟩
  | cons f fs ih =>
    intro clients hf
    by_cases hc : clients = []
    · subst hc
      obtain ⟨w, s, hw, hnil⟩ := ih [] (fun g hg => hf g (List.mem_cons_of_mem _ hg))
      obtain ⟨rfl, rfl⟩ := hnil rfl
      refine ⟨[], [], ?_, fun _ => ⟨rfl, rfl⟩⟩
      simp [broadcastFrames, handle_serial_frame_nil, hw, Bind.bind, Except.bind]
    · have hlen := hf f (by simp)
      have hh := handle_serial_frame_cons clients hc f hlen
      obtain ⟨w2, s2, hw2, _⟩ := ih
        (clients.filter (fun c => decide
          (c ∉ (sendLoop clients
            (FRAME_START :: f.length % 256 :: f.length / 256 % 256 :: f)).2)))
        (fun g hg => hf g (List.mem_cons_of_mem _ hg))
      refine ⟨(sendLoop clients
          (FRAME_START :: f.length % 256 :: f.length / 256 % 256 :: f)).1 ++ w2,
        s2, ?_, fun h => absurd h hc⟩
      simp only [decide_not] at hw2
      simp [broadcastFrames, hh, hw2, Bind.bind, Except.bind]

/-! ### The decoder-state invariant -/

theorem feedGo_inv : ∀ (started : Bool) (size : Nat) (hdr buf data : List Nat),
    (∀ b ∈ data, b < 256) → size < 65536 →
    (started = true → buf.length ≤ size) → (started = false → buf = []) →
    DecInv (feedGo started size hdr buf data).1 ∧
      ∀ f ∈ (feedGo started size hdr buf data).2, f.length < 65536 := by
  intro started size hdr buf data
  induction started, size, hdr, buf, data using feedGo.induct with
  | case1 started size hdr buf =>
    intro _ hsz h1 h0
    rw [feedGo.eq_1]
    exact ⟨⟨hsz, h1, h0⟩, by simp⟩
  | case2 size hdr buf lo hi rest2 ih =>
    intro hb hsz h1 h0
    rw [feedGo.eq_2, if_pos rfl]
    have hlo : lo < 256 := hb lo (by simp)
    have hhi : hi < 256 := hb hi (by simp)
    exact ih (fun b h => hb b (by simp [h])) (by omega)
      (fun _ => by simp [h0 rfl]) (fun h => nomatch h)
  | case3 size hdr buf rest hshort =>
    intro hb hsz h1 h0
    rw [feedGo.eq_3 _ _ _ _ _ hshort, if_pos rfl]
    refine ⟨⟨hsz, by simp, ?_⟩, by simp⟩
    intro _
    simpa using h0 rfl
  | case4 size hdr buf b rest hb2 ih =>
    intro hb hsz h1 h0
    rw [feedGo_skipByte _ _ _ _ hb2]
    exact ih (fun x h => hb x (by simp [h])) hsz h1 h0
  | case5 size hdr buf b rest remaining hr ih =>
    intro hb hsz h1 h0
    have hr2 : size - buf.length ≤ (b :: rest).length := hr
    rw [feedGo.eq_4, if_pos hr2]
    obtain ⟨ihInv, ihF⟩ := ih
      (fun x h => hb x (List.mem_of_mem_drop h)) hsz
      (by simp) (fun _ => rfl)
    refine ⟨ihInv, ?_⟩
    intro f hf
    rcases List.mem_cons.mp hf with h | h
    · subst h
      have htake : (List.take (size - buf.length) (b :: rest)).length
          = size - buf.length := by
        rw [List.length_take]
        omega
      have hbuf := h1 rfl
      simp only [List.length_append, htake]
      omega
    · exact ihF f h
  | case6 size hdr buf b rest remaining hr =>
    intro hb hsz h1 h0
    have hr2 : (b :: rest).length < size - buf.length := Nat.lt_of_not_le hr
    rw [feedGo.eq_4, if_neg hr]
    have hbuf := h1 rfl
    refine ⟨⟨hsz, fun _ => ?_, by simp⟩, by simp⟩
    simp only [List.length_cons] at hr2
    simp only [List.length_append, List.length_cons]
    omega

theorem feedChunks_inv (chunks : List (List Nat)) :
    ∀ st : DecState, (∀ c ∈ chunks, ∀ b ∈ c, b < 256) → DecInv st →
      DecInv (feedChunks st chunks).1 ∧
        ∀ f ∈ (feedChunks st chunks).2, f.length < 65536 := by
  induction chunks with
  | nil => intro st _ hInv; exact ⟨hInv, by simp [feedChunks]⟩
  | cons c cs ih =>
    intro st hb hInv
    obtain ⟨hI1, hF1⟩ := feedGo_inv st.frame_started st.frame_size st.header st.inframe c
      (hb c (by simp)) hInv.1 hInv.2.1 hInv.2.2
    obtain ⟨hI2, hF2⟩ := ih (parse_serial_frames st c).1 (fun d hd => hb d (by simp [hd])) hI1
    refine ⟨by simpa [feedChunks] using hI2, ?_⟩
    intro f hf
    simp only [feedChunks, List.mem_append] at hf
    rcases hf with h | h
    · exact hF1 f h
    · exact hF2 f h

theorem bridgeRun_ok (chunks : List (List Nat)) :
    ∀ (st : DecState) (clients : List Client),
    (∀ c ∈ chunks, ∀ b ∈ c, b < 256) → DecInv st →
    ∃ w c2, bridgeRun ⟨st, clients⟩ chunks
        = Except.ok (⟨(feedChunks st chunks).1, c2⟩, w) ∧
      (clients = [] → w = [] ∧ c2 = []) := by
  induction chunks with
  | nil =>
    intro st clients _ _
    exact ⟨[], clients, rfl, fun h => ⟨rfl, h⟩⟩
  | cons c cs ih =>
    intro st clients hb hInv
    obtain ⟨hI1, hF1⟩ := feedGo_inv st.frame_started st.frame_size st.header st.inframe c
      (hb c (by simp)) hInv.1 hInv.2.1 hInv.2.2
    obtain ⟨w1, s1, hw1, hnil1⟩ := broadcastFrames_ok (parse_serial_frames st c).2 clients hF1
    obtain ⟨w2, s2, hw2, hnil2⟩ := ih (parse_serial_frames st c).1 s1
      (fun d hd => hb d (by simp [hd])) hI1
    refine ⟨w1 ++ w2, s2, ?_, ?_⟩
    · simp [bridgeRun, bridgeStep, hw1, hw2, feedChunks, Bind.bind, Except.bind]
    · intro h
      subst h
      obtain ⟨rfl, rfl⟩ := hnil1 rfl
      obtain ⟨rfl, rfl⟩ := hnil2 rfl
      exact ⟨rfl, rfl⟩

end Bridge

namespace Bridge

/-! ### Helper lemmas on the TCP-client loop -/

theorem tcpGo_marker (su wf : Bool) (size : Nat) (hdr buf : List Nat)
    (lo hi : Nat) (rest2 : List Nat) :
    tcpGo su wf false size hdr buf (FRAME_START :: lo :: hi :: rest2)
      = tcpGo su wf true (lo + 256 * hi) [FRAME_START, lo, hi] buf rest2 := by
  simp [tcpGo]

theorem tcpGo_payload_down (wf : Bool) (size : Nat) (hdr p : List Nat)
    (hlen : p.length = size) (h1 : 1 ≤ p.length) :
    tcpGo false wf true size hdr [] p
      = ⟨⟨false, size, [], []⟩, [], [], false⟩ := by
  obtain ⟨q, p2, rfl⟩ : ∃ q p2, p = q :: p2 := by
    cases p with
    | nil => simp at h1
    | cons q p2 => exact ⟨q, p2, rfl⟩
  subst hlen
  simp [tcpGo]

theorem tcpGo_payload_up_ok (size : Nat) (hdr p : List Nat)
    (hlen : p.length = size) (h1 : 1 ≤ p.length) :
    tcpGo true false true size hdr [] p
      = ⟨⟨false, size, [], []⟩, [hdr ++ p], [], false⟩ := by
  obtain ⟨q, p2, rfl⟩ : ∃ q p2, p = q :: p2 := by
    cases p with
    | nil => simp at h1
    | cons q p2 => exact ⟨q, p2, rfl⟩
  subst hlen
  simp [tcpGo]

theorem tcpGo_payload_up_raise (size : Nat) (hdr p : List Nat)
    (hlen : p.length = size) (h1 : 1 ≤ p.length) :
    tcpGo true true true size hdr [] p
      = ⟨⟨true, size, hdr, p⟩, [], [.errorWritingSerial], false⟩ := by
  obtain ⟨q, p2, rfl⟩ : ∃ q p2, p = q :: p2 := by
    cases p with
    | nil => simp at h1
    | cons q p2 => exact ⟨q, p2, rfl⟩
  subst hlen
  simp [tcpGo]

theorem decInit_inv : DecInv decInit := by
  refine ⟨?_, ?_, ?_⟩ <;> simp [decInit]

theorem handle_serial_frame_survivors (cs : List Client) (f : List Nat)
    (w : List (Nat × List Nat)) (s : List Client)
    (h : handle_serial_frame cs f = Except.ok (w, s)) : ∀ c ∈ s, c ∈ cs := by
  match cs with
  | [] =>
    simp [handle_serial_frame] at h
    obtain ⟨h1, h2⟩ := h
    subst h2
    intro c hcs
    exact hcs
  | d :: ds =>
    rcases hlb : to_bytes_le2 f.length with e | lb
    · simp [handle_serial_frame, hlb, Except.map] at h
    · simp [handle_serial_frame, hlb, Except.map] at h
      obtain ⟨h1, h2⟩ := h
      subst h2
      intro c hcs
      exact List.mem_of_mem_filter hcs

end Bridge

namespace Bridge

/-! ### Claim theorems -/

/-- C1: the claim asserts chunk-boundary independence of the decoder, with
partial header bytes retained and resumed across a `feed` boundary.  The
code violates it: for the bytes `3C 01 00 41`, a whole-chunk feed emits
the frame `[0x41]`, but the split `[3C]` then `[01 00 41]` emits no frame
at all — `parse_serial_frames` saves the partial header
(`self.serial_header = data[i:]`) but never reads it back, so the next
chunk is scanned for a marker from scratch. -/
theorem C1_split_feed_loses_frame :
    (parse_serial_frames decInit [60, 1, 0, 65]).2 = [[65]] ∧
    (feedChunks decInit [[60], [1, 0, 65]]).2 = [] := by
  constructor
  · simp [parse_serial_frames, feedGo, decInit, FRAME_START]
  · simp [feedChunks, parse_serial_frames, feedGo, decInit, FRAME_START]

/-- C2: the claim asserts that the chunks `3C 05` then `00 68 65 6C 6C 6F`
("hello") produce exactly one frame of length 5 which is broadcast to all
registered clients.  The code produces no frame and broadcasts nothing:
the partial header `3C 05` saved at the first chunk boundary is discarded,
and the second chunk contains no marker byte. -/
theorem C2_hello_two_chunks_no_frame :
    (feedChunks decInit [[60, 5], [0, 104, 101, 108, 108, 111]]).2 = [] ∧
    bridgeRun ⟨decInit, [⟨1, true⟩, ⟨2, true⟩]⟩ [[60, 5], [0, 104, 101, 108, 108, 111]]
      = Except.ok (⟨⟨false, 0, [60, 5], []⟩, [⟨1, true⟩, ⟨2, true⟩]⟩, []) := by
  constructor
  · simp [feedChunks, parse_serial_frames, feedGo, decInit, FRAME_START]
  · simp [bridgeRun, bridgeStep, broadcastFrames, parse_serial_frames, feedGo,
      decInit, FRAME_START, Bind.bind, Except.bind]

/-- C3 counterexample: the round-trip law fails at the empty payload.
`encode [] = ok [3C 00 00]`, but feeding that whole encoding to a fresh
decoder emits no frame: the loop exits right after consuming the header
(`i = len(data)`), leaving the zero-length frame pending in state instead
of emitting it. -/
theorem C3_empty_payload_fails :
    encode [] = Except.ok [60, 0, 0] ∧
    parse_serial_frames decInit [60, 0, 0] = (⟨true, 0, [60, 0, 0], []⟩, []) := by
  constructor
  · simp [encode, to_bytes_le2, Except.map, FRAME_START]
  · simp [parse_serial_frames, feedGo, decInit, FRAME_START]

/-- C3 (amended): the round-trip law holds for payloads of length 1..65535:
encoding `p` and feeding the encoding as one chunk to a fresh decoder
yields exactly the frame sequence `[p]`.  For the empty payload the
declared length 0 does not complete a frame within the same `feed` call;
the empty frame is only emitted at the start of the next `feed` of
non-empty data. -/
theorem C3_roundtrip_nonempty (p : List Nat) (h1 : 1 ≤ p.length)
    (h2 : p.length ≤ 65535) :
    encode p = Except.ok (FRAME_START :: p.length % 256 :: p.length / 256 % 256 :: p) ∧
    (parse_serial_frames decInit
      (FRAME_START :: p.length % 256 :: p.length / 256 % 256 :: p)).2 = [p] := by
  refine ⟨encode_ok p h2, ?_⟩
  have henc := feedGo_encoded 0 [] p h1 h2
  simp [parse_serial_frames, decInit, henc]

/-- C3 witness: round-trip at the one-byte payload `[42]`. -/
theorem C3_roundtrip_nonempty_witness :
    encode [42] = Except.ok
      (FRAME_START :: [42].length % 256 :: [42].length / 256 % 256 :: [42]) ∧
    (parse_serial_frames decInit
      (FRAME_START :: [42].length % 256 :: [42].length / 256 % 256 :: [42])).2 = [[42]] :=
  C3_roundtrip_nonempty [42] (by simp) (by simp)

/-- C4: the encoder fails with `PayloadTooLarge` for every payload longer
than 65535 bytes (the overflow of `size.to_bytes(2, "little")`), and
succeeds with marker, little-endian 16-bit length, then payload for every
payload of length at most 65535. -/
theorem C4_encode_bounds :
    (∀ p : List Nat, 65535 < p.length → encode p = Except.error .payloadTooLarge) ∧
    (∀ p : List Nat, p.length ≤ 65535 →
      encode p = Except.ok (FRAME_START :: p.length % 256 :: p.length / 256 % 256 :: p)) :=
  ⟨fun p hp => encode_overflow p hp, fun p hp => encode_ok p hp⟩

/-- C4 witness: overflow at length 65536 and success at length 1. -/
theorem C4_encode_bounds_witness :
    encode (List.replicate 65536 0) = Except.error .payloadTooLarge ∧
    encode [7] = Except.ok
      (FRAME_START :: [7].length % 256 :: [7].length / 256 % 256 :: [7]) :=
  ⟨C4_encode_bounds.1 (List.replicate 65536 0) (by rw [List.length_replicate]; omega),
   C4_encode_bounds.2 [7] (by simp)⟩

/-- C5: audience independence of decoding.  Over any chunk sequence of
wire bytes, the bridge never fails, and its final decoder state equals the
pure decode of the chunks — the same for every client set, empty or not.
With zero clients no write is performed and the (empty) client set is
unchanged. -/
theorem C5_audience_independence (chunks : List (List Nat))
    (hb : ∀ c ∈ chunks, ∀ b ∈ c, b < 256) (clients : List Client) :
    ∃ w c2, bridgeRun ⟨decInit, clients⟩ chunks
        = Except.ok (⟨(feedChunks decInit chunks).1, c2⟩, w) ∧
      (clients = [] → w = [] ∧ c2 = []) :=
  bridgeRun_ok chunks decInit clients hb decInit_inv

/-- C5 witness: one complete frame with zero registered clients. -/
theorem C5_audience_independence_witness :
    ∃ w c2, bridgeRun ⟨decInit, []⟩ [[60, 1, 0, 65]]
        = Except.ok (⟨(feedChunks decInit [[60, 1, 0, 65]]).1, c2⟩, w) ∧
      (([] : List Client) = [] → w = [] ∧ c2 = []) :=
  C5_audience_independence [[60, 1, 0, 65]] (by decide) []

/-- C6: broadcast failure isolation.  When a frame of encodable length is
broadcast and client `k` fails its write, every client whose write
succeeds still receives the packet (the loop is neither aborted nor
skipped), `k` is removed from the membership set, the surviving set only
shrinks, and `k` is absent from any later broadcast over the survivors. -/
theorem C6_broadcast_isolation (clients : List Client) (frame : List Nat)
    (hf : frame.length ≤ 65535) (k : Client) (hk : k ∈ clients)
    (hkf : k.writeOk = false) :
    ∃ writes survivors,
      handle_serial_frame clients frame = Except.ok (writes, survivors) ∧
      (∀ c ∈ clients, c.writeOk = true →
        (c.id, FRAME_START :: frame.length % 256 :: frame.length / 256 % 256 :: frame)
          ∈ writes) ∧
      k ∉ survivors ∧ (∀ c ∈ survivors, c ∈ clients) ∧
      (∀ (frame2 : List Nat) (w2 : List (Nat × List Nat)) (s2 : List Client),
        handle_serial_frame survivors frame2 = Except.ok (w2, s2) → k ∉ s2) := by
  have hne : clients ≠ [] := fun h => by simp [h] at hk
  have hh := handle_serial_frame_cons clients hne frame (by omega)
  have hkfail := sendLoop_fail_mem clients
    (FRAME_START :: frame.length % 256 :: frame.length / 256 % 256 :: frame) k hk hkf
  have hknot : k ∉ clients.filter (fun c => decide
      (c ∉ (sendLoop clients
        (FRAME_START :: frame.length % 256 :: frame.length / 256 % 256 :: frame)).2)) := by
    intro hmem
    have hp := List.of_mem_filter hmem
    simp only [decide_eq_true_eq] at hp
    exact hp hkfail
  refine ⟨_, _, hh, ?_, hknot, ?_, ?_⟩
  · intro c hc hok
    exact sendLoop_good_written clients _ c hc hok
  · intro c hc
    exact List.mem_of_mem_filter hc
  · intro frame2 w2 s2 hh2 hmem2
    exact hknot (handle_serial_frame_survivors _ _ _ _ hh2 k hmem2)

/-- C6 witness: three clients, the second one failing. -/
theorem C6_broadcast_isolation_witness :
    ∃ writes survivors,
      handle_serial_frame [⟨1, true⟩, ⟨2, false⟩, ⟨3, true⟩] [9]
        = Except.ok (writes, survivors) ∧
      (∀ c ∈ [(⟨1, true⟩ : Client), ⟨2, false⟩, ⟨3, true⟩], c.writeOk = true →
        (c.id, FRAME_START :: [9].length % 256 :: [9].length / 256 % 256 :: [9])
          ∈ writes) ∧
      (⟨2, false⟩ : Client) ∉ survivors ∧
      (∀ c ∈ survivors, c ∈ [(⟨1, true⟩ : Client), ⟨2, false⟩, ⟨3, true⟩]) ∧
      (∀ (frame2 : List Nat) (w2 : List (Nat × List Nat)) (s2 : List Client),
        handle_serial_frame survivors frame2 = Except.ok (w2, s2) →
          (⟨2, false⟩ : Client) ∉ s2) :=
  C6_broadcast_isolation [⟨1, true⟩, ⟨2, false⟩, ⟨3, true⟩] [9] (by simp)
    ⟨2, false⟩ (by simp) rfl

/-- C7: resync law.  For any garbage prefix containing no marker byte and
any payload of length 1..65535, feeding the garbage followed by the valid
encoding to a fresh decoder silently discards the garbage and emits
exactly the one frame `p` (decoding never raises). -/
theorem C7_resync (g p : List Nat) (hg : ∀ b ∈ g, b ≠ FRAME_START)
    (h1 : 1 ≤ p.length) (h2 : p.length ≤ 65535) :
    encode p = Except.ok (FRAME_START :: p.length % 256 :: p.length / 256 % 256 :: p) ∧
    (parse_serial_frames decInit
      (g ++ (FRAME_START :: p.length % 256 :: p.length / 256 % 256 :: p))).2 = [p] := by
  refine ⟨encode_ok p h2, ?_⟩
  have hskip := feedGo_skip g hg 0 [] []
    (FRAME_START :: p.length % 256 :: p.length / 256 % 256 :: p)
  have henc := feedGo_encoded 0 [] p h1 h2
  simp [parse_serial_frames, decInit, hskip, henc]

/-- C7 witness: garbage `[1, 2]` then the encoding of `[5]`. -/
theorem C7_resync_witness :
    encode [5] = Except.ok
      (FRAME_START :: [5].length % 256 :: [5].length / 256 % 256 :: [5]) ∧
    (parse_serial_frames decInit
      ([1, 2] ++ (FRAME_START :: [5].length % 256 :: [5].length / 256 % 256 :: [5]))).2
      = [[5]] :=
  C7_resync [1, 2] [5] (by decide) (by simp) (by simp)

/-- C8 counterexample: the claim says a frame completed while the upstream
link is unusable, or whose upstream write raises, is dropped with a logged
warning rather than buffered.  On `3C 01 00 41`: with the transport down
the frame is dropped but nothing is logged; with the write raising, the
frame bytes are kept in the parsing state (`inframe = [0x41]`,
`frame_started` still true) — buffered, not dropped. -/
theorem C8_drop_with_warning_false :
    (tcpGo false false false 0 [] [] [60, 1, 0, 65]).logs = [] ∧
    (tcpGo false false false 0 [] [] [60, 1, 0, 65]).state = ⟨false, 1, [], []⟩ ∧
    (tcpGo true true false 0 [] [] [60, 1, 0, 65]).state = ⟨true, 1, [60, 1, 0], [65]⟩ := by
  refine ⟨?_, ?_, ?_⟩ <;> simp [tcpGo, FRAME_START]

/-- C8 (amended): when a client completes a frame while the upstream link
is unusable, the frame is dropped silently (no write, no log) and the
parser state resets, so forwarding resumes once the link is usable; when
the upstream write raises, the error is logged, the rest of the chunk is
discarded, and the frame bytes stay buffered in state (retried at the
next read).  In every case the client is not removed inside the loop. -/
theorem C8_upstream_down_amended (s0 : Nat) (h0 : List Nat) (wf : Bool)
    (lo hi : Nat) (p : List Nat) (hlen : p.length = lo + 256 * hi)
    (h1 : 1 ≤ p.length) :
    tcpGo false wf false s0 h0 [] (FRAME_START :: lo :: hi :: p)
        = ⟨⟨false, lo + 256 * hi, [], []⟩, [], [], false⟩ ∧
    tcpGo true false false s0 h0 [] (FRAME_START :: lo :: hi :: p)
        = ⟨⟨false, lo + 256 * hi, [], []⟩, [[FRAME_START, lo, hi] ++ p], [], false⟩ ∧
    tcpGo true true false s0 h0 [] (FRAME_START :: lo :: hi :: p)
        = ⟨⟨true, lo + 256 * hi, [FRAME_START, lo, hi], p⟩, [],
            [.errorWritingSerial], false⟩ := by
  refine ⟨?_, ?_, ?_⟩
  · rw [tcpGo_marker, tcpGo_payload_down wf _ _ p hlen h1]
  · rw [tcpGo_marker, tcpGo_payload_up_ok _ _ p hlen h1]
  · rw [tcpGo_marker, tcpGo_payload_up_raise _ _ p hlen h1]

/-- C8 witness: the frame `3C 01 00 41` from a fresh client state. -/
theorem C8_upstream_down_amended_witness :
    tcpGo false false false 0 [] [] (FRAME_START :: 1 :: 0 :: [65])
        = ⟨⟨false, 1 + 256 * 0, [], []⟩, [], [], false⟩ ∧
    tcpGo true false false 0 [] [] (FRAME_START :: 1 :: 0 :: [65])
        = ⟨⟨false, 1 + 256 * 0, [], []⟩, [[FRAME_START, 1, 0] ++ [65]], [], false⟩ ∧
    tcpGo true true false 0 [] [] (FRAME_START :: 1 :: 0 :: [65])
        = ⟨⟨true, 1 + 256 * 0, [FRAME_START, 1, 0], [65]⟩, [],
            [.errorWritingSerial], false⟩ :=
  C8_upstream_down_amended 0 [] false 1 0 [65] (by simp) (by simp)

/-- C10: every packet broadcast to clients is well-formed and its header
is consistent with its payload: every frame the upstream decoder emits
(from the initial state, over any chunk sequence of wire bytes) fits
16 bits, the packet construction never overflows, and every write carries
exactly marker, recomputed little-endian payload length, then payload. -/
theorem C10_packets_wellformed (chunks : List (List Nat))
    (hb : ∀ c ∈ chunks, ∀ b ∈ c, b < 256)
    (f : List Nat) (hf : f ∈ (feedChunks decInit chunks).2)
    (clients : List Client) :
    f.length < 65536 ∧
    ∃ writes survivors, handle_serial_frame clients f = Except.ok (writes, survivors) ∧
      ∀ w ∈ writes,
        w.2 = FRAME_START :: f.length % 256 :: f.length / 256 % 256 :: f := by
  have hlen := (feedChunks_inv chunks decInit hb decInit_inv).2 f hf
  refine ⟨hlen, ?_⟩
  by_cases hc : clients = []
  · subst hc
    exact ⟨[], [], handle_serial_frame_nil f, by simp⟩
  · have hh := handle_serial_frame_cons clients hc f hlen
    exact ⟨_, _, hh, fun w hw => sendLoop_writes_packet clients _ w hw⟩

/-- C10 witness: the frame `[0x41]` decoded from `3C 01 00 41` and
broadcast to one client. -/
theorem C10_packets_wellformed_witness :
    [65].length < 65536 ∧
    ∃ writes survivors,
      handle_serial_frame [⟨1, true⟩] [65] = Except.ok (writes, survivors) ∧
      ∀ w ∈ writes,
        w.2 = FRAME_START :: [65].length % 256 :: [65].length / 256 % 256 :: [65] :=
  C10_packets_wellformed [[60, 1, 0, 65]] (by decide) [65]
    (by simp [feedChunks, parse_serial_frames, feedGo, decInit, FRAME_START]) [⟨1, true⟩]

end Bridge
